import Mathlib

/-!
Verification of the `git-open` CLI: a shallow embedding of `src/main.go`.

Go strings are modelled as `List Char`; the Go standard-library string
helpers used by the program (`strings.SplitN` with limit 2, `strings.Split`,
`strings.Fields`, `strings.TrimSuffix`, `strings.TrimPrefix`,
`strings.TrimSpace`, `strings.Replace` with count 1, `strings.HasPrefix`,
`strings.HasSuffix`) are embedded below.  A Go slice access `xs[1]` on the
result of `SplitN(s, sep, 2)` panics when `sep` does not occur in `s`;
this is modelled totally: `splitFirst` returns an `Option`, and the panic
is the `none` branch.  Effectful operations (subprocess output, HTTP
results, the opener process) are oracle fields of an `Env` record.
-/

abbrev Str := List Char

/-- Coerce a Lean string literal into the `List Char` model. -/
def strLit (s : String) : Str := s.data

/-- Whitespace predicate used by Go's `strings.Fields` and
`strings.TrimSpace` (`unicode.IsSpace`), restricted to the Latin-1 range;
space characters above U+00A0 are not produced by any input this program
reads. -/
def goIsSpace (c : Char) : Bool :=
  c = ' ' || c = '\t' || c = '\n' || c = Char.ofNat 11 || c = Char.ofNat 12 ||
  c = '\r' || c = Char.ofNat 133 || c = Char.ofNat 160

/-- `strings.SplitN s sep 2` for a one-character separator, split at the
first occurrence; `none` when the separator does not occur (in which case
the Go slice has length 1 and any access to index 1 panics). -/
def splitFirst (sep : Char) : Str → Option (Str × Str)
  | [] => none
  | c :: cs =>
    if c = sep then some ([], cs)
    else (splitFirst sep cs).map (fun p => (c :: p.1, p.2))

/-- `strings.Split s sep` for a one-character separator: every occurrence
splits; always non-empty. -/
def splitAll (sep : Char) : Str → List Str
  | [] => [[]]
  | c :: cs =>
    if c = sep then [] :: splitAll sep cs
    else
      match splitAll sep cs with
      | r :: rs => (c :: r) :: rs
      | [] => [[c]]

/-- `strings.TrimSuffix s suf`: drop `suf` from the end when present. -/
def trimSuffix (s suf : Str) : Str :=
  if suf.isSuffixOf s then s.take (s.length - suf.length) else s

/-- `strings.TrimPrefix s pre`: drop `pre` from the front when present. -/
def trimPrefix (s pre : Str) : Str :=
  if pre.isPrefixOf s then s.drop pre.length else s

/-- `strings.TrimSpace`: drop leading and trailing whitespace. -/
def trimSpace (s : Str) : Str :=
  (((s.dropWhile goIsSpace).reverse).dropWhile goIsSpace).reverse

/-- `strings.Replace s old new 1` for one-character `old`/`new`: replace
the first occurrence only. -/
def replaceFirst (old new : Char) : Str → Str
  | [] => []
  | c :: cs => if c = old then new :: cs else c :: replaceFirst old new cs

/-- Accumulator loop for `fields`; `cur` is the current field, reversed
(empty when between fields — Go's `Fields` never yields empty fields). -/
def fieldsAux : Str → Str → List Str
  | cur, [] => if cur = [] then [] else [cur.reverse]
  | cur, c :: cs =>
    if goIsSpace c then
      if cur = [] then fieldsAux [] cs else cur.reverse :: fieldsAux [] cs
    else fieldsAux (c :: cur) cs

/-- `strings.Fields`: split around runs of whitespace. -/
def fields (s : Str) : List Str := fieldsAux [] s

/-- The `.git` suffix stripped by the URL parsers. -/
def dotGit : Str := strLit ".git"

/-- `parseRepoURLProjectName` (src/main.go:135): split at the first `:`,
split the remainder at the first `/`, strip a trailing `.git`.  Each
unguarded Go index `[1]` is the `none` case here. -/
def parseRepoURLProjectName (rawurl : Str) : Option Str :=
  match splitFirst ':' rawurl with
  | none => none
  | some (_, hostProj) =>
    match splitFirst '/' hostProj with
    | none => none
    | some (_, nm) => some (trimSuffix nm dotGit)

/-- `parseRepoURLProjectOrg` (src/main.go:141): like the name parser but
return the component before the first `/`.  The Go code reads
`orgAndName[0]`, which is always in range: when the remainder after the
first `:` has no `/`, `SplitN` returns a one-element slice and the whole
remainder is returned.  Only the missing-`:` index `[1]` can panic. -/
def parseRepoURLProjectOrg (rawurl : Str) : Option Str :=
  match splitFirst ':' rawurl with
  | none => none
  | some (_, hostProj) =>
    match splitFirst '/' hostProj with
    | none => some hostProj
    | some (og, _) => some og

/-- `parseRepoURLProjectURL` (src/main.go:148): split at the first `@`,
replace the first `:` of the remainder by `/`, strip a trailing `.git`,
prepend `https://`. -/
def parseRepoURLProjectURL (rawurl : Str) : Option Str :=
  match splitFirst '@' rawurl with
  | none => none
  | some (_, rest) =>
    some (strLit "https://" ++ trimSuffix (replaceFirst ':' '/' rest) dotGit)

/-- The spec's error taxonomy (spec.md section 7), with the Go error
message attached: `resolution` for `errors.New` in the git-introspection
steps, `notFound` for the API lookups, `launch` for the opener,
`externalFail` for a failing subprocess or HTTP call (the Go code
propagates those errors verbatim), and `panicked` for a Go runtime panic
(out-of-range slice index in the URL parsers). -/
inductive GoError where
  | resolution (msg : String)
  | notFound (msg : String)
  | launch (msg : String)
  | externalFail (what : String)
  | panicked (what : String)
deriving DecidableEq, Repr

/-- A GitLab project as used by `getProjectID`: only `ID` and
`SSHURLToRepo` are read. -/
structure Project where
  id : Int
  sshURLToRepo : Str
deriving DecidableEq, Repr

/-- A GitLab merge request as used by `getMRURL`: only `WebURL` is read
(the source branch and state filters live in the query options). -/
structure MergeRequest where
  webURL : Str
deriving DecidableEq, Repr

/-- `strconv.Itoa` applied to a project ID. -/
def itoa (n : Int) : Str := (toString n).data

/-- Pure core of `getBranch` (src/main.go:15): given the stdout of
`git branch`, return the first line prefixed with `*`, with the marker
removed and whitespace trimmed; otherwise the resolution error. -/
def getBranch (out : Str) : Except GoError Str :=
  match (splitAll '\n' out).find? (fun line => (strLit "*").isPrefixOf line) with
  | some line => .ok (trimSpace (trimPrefix line (strLit "*")))
  | none => .error (.resolution "unable to get current working branch")

/-- The suffix `org ++ "/" ++ name ++ ".git"` that `getProjectID` matches
against each candidate's SSH repo URL. -/
def orgNameSuffix (og nm : Str) : Str := og ++ '/' :: nm ++ dotGit

/-- Pure core of the strict `getProjectID` (src/main.go:34), after the
name/org have been parsed and the search has returned `projs`: error on an
empty result list, else scan for the first candidate whose SSH URL ends
with `org/name.git`, error when none matches. -/
def getProjectIDFromResults (og nm : Str) (projs : List Project) :
    Except GoError Str :=
  if projs = [] then .error (.notFound "got back no projects matching name")
  else
    match projs.find? (fun p => (orgNameSuffix og nm).isSuffixOf p.sshURLToRepo) with
    | some p => .ok (itoa p.id)
    | none => .error (.notFound "unable to find project")

/-- Pure core of the loose `getProjectID` variant (second copy of main.go,
src/main.go:252): error on an empty result list, else blindly the first
result's ID. -/
def getProjectIDLooseFromResults (projs : List Project) : Except GoError Str :=
  match projs with
  | [] => .error (.notFound "unable to find project")
  | p :: _ => .ok (itoa p.id)

/-- Pure core of `getMRURL` (src/main.go:67), after the filtered
merge-request search returned `mrs`: error when empty, else the first
result's web URL verbatim. -/
def getMRURLFromResults (mrs : List MergeRequest) : Except GoError Str :=
  match mrs with
  | [] => .error (.notFound "no matching MRs found")
  | m :: _ => .ok m.webURL

/-- One iteration step of the loop in `getProjectRemote`: skip empty
lines, split into whitespace-separated fields, skip lines with fewer than
three fields, and return field 1 when field 2 is `(push)`. -/
def findPushRemote : List Str → Option Str
  | [] => none
  | line :: rest =>
    if line = [] then findPushRemote rest
    else
      match fields line with
      | _ :: url :: tag :: _ =>
        if tag = strLit "(push)" then some url else findPushRemote rest
      | _ => findPushRemote rest

/-- Pure core of `getProjectRemote` (src/main.go:110): given the stdout of
`git remote -v`, the URL of the first push remote, or the resolution
error. -/
def getProjectRemote (out : Str) : Except GoError Str :=
  match findPushRemote (splitAll '\n' out) with
  | some url => .ok url
  | none => .error (.resolution "unable to find remote push url")

/-- `load` (src/main.go:153): choose `xdg-open` when it exists on the
path, else `open`, and run it on the URL.  `runCmd` is the
process-spawning oracle; `some msg` means the process could not start or
exited non-zero, which the spec taxonomy classifies as a launch error. -/
def load (xdgExists : Bool) (runCmd : Str → Str → Option String) (url : Str) :
    Except GoError Unit :=
  let openCmd := if xdgExists then strLit "xdg-open" else strLit "open"
  match runCmd openCmd url with
  | none => .ok ()
  | some msg => .error (.launch msg)

/-- The effect oracles of one program run: outputs of the two git
subprocesses (`none` = the command itself failed), the two GitLab API
calls (`none` = HTTP/transport error), and the opener. -/
structure Env where
  branchOut : Option Str
  remoteOut : Option Str
  searchProjects : Str → Option (List Project)
  searchMRs : Str → Str → Option (List MergeRequest)
  xdgExists : Bool
  runCmd : Str → Str → Option String

/-- `getBranch` including the `git branch` subprocess. -/
def getBranchEff (env : Env) : Except GoError Str :=
  match env.branchOut with
  | none => .error (.externalFail "git branch")
  | some out => getBranch out

/-- `getProjectRemote` including the `git remote -v` subprocess. -/
def getProjectRemoteEff (env : Env) : Except GoError Str :=
  match env.remoteOut with
  | none => .error (.externalFail "git remote -v")
  | some out => getProjectRemote out

/-- `getProjectName` (src/main.go:86); a parser panic aborts the run. -/
def getProjectNameEff (env : Env) : Except GoError Str :=
  (getProjectRemoteEff env).bind fun url =>
    match parseRepoURLProjectName url with
    | some nm => .ok nm
    | none => .error (.panicked "index out of range in parseRepoURLProjectName")

/-- `getProjectOrg` (src/main.go:94). -/
def getProjectOrgEff (env : Env) : Except GoError Str :=
  (getProjectRemoteEff env).bind fun url =>
    match parseRepoURLProjectOrg url with
    | some og => .ok og
    | none => .error (.panicked "index out of range in parseRepoURLProjectOrg")

/-- `getProjectHomeURL` (src/main.go:102). -/
def getProjectHomeURLEff (env : Env) : Except GoError Str :=
  (getProjectRemoteEff env).bind fun url =>
    match parseRepoURLProjectURL url with
    | some u => .ok u
    | none => .error (.panicked "index out of range in parseRepoURLProjectURL")

/-- `getProjectID` (src/main.go:34) including the name/org resolution and
the project-search API call. -/
def getProjectIDEff (env : Env) : Except GoError Str :=
  (getProjectNameEff env).bind fun nm =>
  (getProjectOrgEff env).bind fun og =>
    match env.searchProjects nm with
    | none => .error (.externalFail "ListProjects")
    | some projs => getProjectIDFromResults og nm projs

/-- `getMRURL` (src/main.go:67) including the merge-request API call. -/
def getMRURLEff (env : Env) (projID branch : Str) : Except GoError Str :=
  match env.searchMRs projID branch with
  | none => .error (.externalFail "ListProjectMergeRequests")
  | some mrs => getMRURLFromResults mrs

/-- Observable outcome of one run of `main`: the URL handed to the opener
on success, a fatal logged error (`log.Fatalf` via `must`/`stringmust`),
or the fatal invalid-argument exit of the default switch branch. -/
inductive MainResult where
  | opened (url : Str)
  | fatal (e : GoError)
  | invalidArg (arg : Str)
deriving DecidableEq, Repr

/-- The argument `main` switches on (src/main.go:195): `os.Args[1]` when
present, else `"home"`. -/
def argOf (argv : List Str) : Str :=
  match argv with
  | _ :: a :: _ => a
  | _ => strLit "home"

/-- Body shared by the `home` and `homepage` switch cases (the Go code
reaches `homepage` from `home` by `fallthrough`). -/
def runHome (env : Env) : MainResult :=
  match getProjectHomeURLEff env with
  | .error e => .fatal e
  | .ok url =>
    match load env.xdgExists env.runCmd url with
    | .error e => .fatal e
    | .ok _ => .opened url

/-- Body of the `mr` switch case. -/
def runMR (env : Env) : MainResult :=
  match getBranchEff env with
  | .error e => .fatal e
  | .ok branch =>
    match getProjectIDEff env with
    | .error e => .fatal e
    | .ok projID =>
      match getMRURLEff env projID branch with
      | .error e => .fatal e
      | .ok url =>
        match load env.xdgExists env.runCmd url with
        | .error e => .fatal e
        | .ok _ => .opened url

/-- `main` (src/main.go:194): dispatch on the first CLI argument. -/
def goMain (env : Env) (argv : List Str) : MainResult :=
  let arg := argOf argv
  if arg = strLit "mr" then runMR env
  else if arg = strLit "home" then runHome env
  else if arg = strLit "homepage" then runHome env
  else .invalidArg arg

/-! ### Library lemmas about the embedded string helpers -/

theorem splitFirst_eq_none_iff (c : Char) (s : Str) :
    splitFirst c s = none ↔ c ∉ s := by
  induction s with
  | nil => simp [splitFirst]
  | cons x xs ih =>
    by_cases hx : x = c
    · subst hx; simp [splitFirst]
    · simp only [splitFirst, if_neg hx, Option.map_eq_none', ih, List.mem_cons]
      constructor
      · intro h hc; rcases hc with hc | hc
        · exact hx hc.symm
        · exact h hc
      · intro h; exact fun hc => h (Or.inr hc)

theorem splitFirst_append_not_mem (c : Char) (a b : Str) (ha : c ∉ a) :
    splitFirst c (a ++ c :: b) = some (a, b) := by
  induction a with
  | nil => simp [splitFirst]
  | cons x xs ih =>
    have hx : ¬ x = c := fun h => ha (h ▸ List.mem_cons_self x xs)
    have hxs : c ∉ xs := fun h => ha (List.mem_cons_of_mem x h)
    simp [splitFirst, hx, ih hxs]

theorem splitFirst_eq_some (c : Char) (s a b : Str)
    (h : splitFirst c s = some (a, b)) : s = a ++ c :: b ∧ c ∉ a := by
  induction s generalizing a b with
  | nil => simp [splitFirst] at h
  | cons x xs ih =>
    by_cases hx : x = c
    · subst hx
      simp only [splitFirst, if_pos rfl, Option.some.injEq, Prod.mk.injEq] at h
      obtain ⟨rfl, rfl⟩ := h
      exact ⟨rfl, List.not_mem_nil _⟩
    · simp only [splitFirst, if_neg hx, Option.map_eq_some'] at h
      obtain ⟨⟨a', b'⟩, hab, heq⟩ := h
      obtain ⟨h1, h2⟩ := ih a' b' hab
      cases heq
      refine ⟨by simp [h1], ?_⟩
      intro hmem
      rcases List.mem_cons.mp hmem with h | h
      · exact hx h.symm
      · exact h2 h

theorem trimSuffix_append (a suf : Str) : trimSuffix (a ++ suf) suf = a := by
  have hs : suf.isSuffixOf (a ++ suf) = true :=
    List.isSuffixOf_iff_suffix.mpr ⟨a, rfl⟩
  rw [trimSuffix, if_pos hs, List.length_append, Nat.add_sub_cancel]
  exact List.take_left a suf

theorem trimSuffix_of_not_suffix (s suf : Str) (h : ¬ suf <:+ s) :
    trimSuffix s suf = s := by
  have hs : ¬ suf.isSuffixOf s = true := fun hb => h (List.isSuffixOf_iff_suffix.mp hb)
  rw [trimSuffix, if_neg hs]

theorem replaceFirst_append_not_mem (c d : Char) (a b : Str) (ha : c ∉ a) :
    replaceFirst c d (a ++ c :: b) = a ++ d :: b := by
  induction a with
  | nil => simp [replaceFirst]
  | cons x xs ih =>
    have hx : ¬ x = c := fun h => ha (h ▸ List.mem_cons_self x xs)
    have hxs : c ∉ xs := fun h => ha (List.mem_cons_of_mem x h)
    simp [replaceFirst, hx, ih hxs]

/-! ### C1: parsing SSH-style remote URLs -/

/-- C1.  For every remote URL of the shape `user@host:org/name.git` (the
user part free of `@` and `:`, the host free of `:`, the org free of `/`),
`parseRepoURLProjectOrg` yields the org, `parseRepoURLProjectName` yields
the name, and `parseRepoURLProjectURL` yields `https://host/org/name`;
the witness instantiates this at `git@github.com:minond/git-open.git`,
giving org `minond`, name `git-open` and home URL
`https://github.com/minond/git-open`. -/
theorem c1_parse_ssh_remote (user host og nm : Str)
    (huAt : '@' ∉ user) (huColon : ':' ∉ user) (hhColon : ':' ∉ host)
    (hoSlash : '/' ∉ og) :
    parseRepoURLProjectOrg (user ++ '@' :: (host ++ ':' :: (og ++ '/' :: (nm ++ dotGit))))
      = some og ∧
    parseRepoURLProjectName (user ++ '@' :: (host ++ ':' :: (og ++ '/' :: (nm ++ dotGit))))
      = some nm ∧
    parseRepoURLProjectURL (user ++ '@' :: (host ++ ':' :: (og ++ '/' :: (nm ++ dotGit))))
      = some (strLit "https://" ++ (host ++ '/' :: (og ++ '/' :: nm))) := by
  have hassoc :
      user ++ '@' :: (host ++ ':' :: (og ++ '/' :: (nm ++ dotGit)))
        = (user ++ '@' :: host) ++ ':' :: (og ++ '/' :: (nm ++ dotGit)) := by
    simp
  have hcolon_mem : ':' ∉ user ++ '@' :: host := by
    intro hmem
    rcases List.mem_append.mp hmem with h | h
    · exact huColon h
    · rcases List.mem_cons.mp h with h | h
      · exact absurd h (by decide)
      · exact hhColon h
  have hsplit1 :
      splitFirst ':' (user ++ '@' :: (host ++ ':' :: (og ++ '/' :: (nm ++ dotGit))))
        = some (user ++ '@' :: host, og ++ '/' :: (nm ++ dotGit)) := by
    rw [hassoc]
    exact splitFirst_append_not_mem ':' (user ++ '@' :: host) (og ++ '/' :: (nm ++ dotGit))
      hcolon_mem
  have hsplit2 : splitFirst '/' (og ++ '/' :: (nm ++ dotGit)) = some (og, nm ++ dotGit) :=
    splitFirst_append_not_mem '/' og (nm ++ dotGit) hoSlash
  have hsplitAt :
      splitFirst '@' (user ++ '@' :: (host ++ ':' :: (og ++ '/' :: (nm ++ dotGit))))
        = some (user, host ++ ':' :: (og ++ '/' :: (nm ++ dotGit))) :=
    splitFirst_append_not_mem '@' user (host ++ ':' :: (og ++ '/' :: (nm ++ dotGit))) huAt
  have hrepl := replaceFirst_append_not_mem ':' '/' host (og ++ '/' :: (nm ++ dotGit)) hhColon
  have hre : host ++ '/' :: (og ++ '/' :: (nm ++ dotGit))
      = (host ++ '/' :: (og ++ '/' :: nm)) ++ dotGit := by simp
  refine ⟨?_, ?_, ?_⟩
  · simp only [parseRepoURLProjectOrg, hsplit1, hsplit2]
  · simp only [parseRepoURLProjectName, hsplit1, hsplit2, trimSuffix_append]
  · simp only [parseRepoURLProjectURL, hsplitAt, hrepl, hre, trimSuffix_append,
      Option.some.injEq]

/-- C1 witness: the concrete remote `git@github.com:minond/git-open.git`. -/
theorem c1_parse_ssh_remote_witness :
    parseRepoURLProjectOrg (strLit "git" ++ '@' :: (strLit "github.com" ++ ':' ::
        (strLit "minond" ++ '/' :: (strLit "git-open" ++ dotGit))))
      = some (strLit "minond") ∧
    parseRepoURLProjectName (strLit "git" ++ '@' :: (strLit "github.com" ++ ':' ::
        (strLit "minond" ++ '/' :: (strLit "git-open" ++ dotGit))))
      = some (strLit "git-open") ∧
    parseRepoURLProjectURL (strLit "git" ++ '@' :: (strLit "github.com" ++ ':' ::
        (strLit "minond" ++ '/' :: (strLit "git-open" ++ dotGit))))
      = some (strLit "https://" ++ (strLit "github.com" ++ '/' ::
          (strLit "minond" ++ '/' :: strLit "git-open"))) :=
  c1_parse_ssh_remote (strLit "git") (strLit "github.com") (strLit "minond")
    (strLit "git-open") (by decide) (by decide) (by decide) (by decide)

/-! ### C2: failure behaviour of the URL parsers on malformed input -/

/-- The well-formedness criterion named by the spec (spec.md section 3):
the raw remote URL contains exactly one `:`, and exactly one `/` after it. -/
def remoteWellFormed (raw : Str) : Bool :=
  raw.count ':' == 1 &&
    match splitFirst ':' raw with
    | some (_, rest) => rest.count '/' == 1
    | none => false

/-- C2 counterexample: `git@h:o:x/n.git` is malformed (two colons), yet
all three parsers silently produce a result instead of failing. -/
theorem c2_counterexample :
    remoteWellFormed (strLit "git@h:o:x/n.git") = false ∧
    parseRepoURLProjectName (strLit "git@h:o:x/n.git") = some (strLit "n") ∧
    parseRepoURLProjectOrg (strLit "git@h:o:x/n.git") = some (strLit "o:x") ∧
    parseRepoURLProjectURL (strLit "git@h:o:x/n.git") = some (strLit "https://h/o:x/n") := by
  decide

/-- C2 (amended).  The parsers are total in the embedding (an unguarded Go
index is the `none` branch, never an out-of-bounds access), and they fail
exactly on these inputs — not on all malformed ones: the name parser
fails precisely when the input has no `:` or nothing after its first `:`
contains a `/`; the org parser fails precisely when the input has no `:`
(when no `/` follows, Go's in-range index `[0]` returns the whole
remainder); the URL parser fails precisely when the input has no `@`.
Inputs with extra separators are accepted silently, split at the first
occurrence. -/
theorem c2_parse_fail_characterization (raw : Str) :
    (parseRepoURLProjectOrg raw = none ↔ ':' ∉ raw) ∧
    (parseRepoURLProjectURL raw = none ↔ '@' ∉ raw) ∧
    (parseRepoURLProjectName raw = none ↔
      ':' ∉ raw ∨ ∃ a b, raw = a ++ ':' :: b ∧ ':' ∉ a ∧ '/' ∉ b) := by
  refine ⟨?_, ?_, ?_⟩
  · cases hsp : splitFirst ':' raw with
    | none =>
      have hne := (splitFirst_eq_none_iff ':' raw).mp hsp
      simp [parseRepoURLProjectOrg, hsp, hne]
    | some ab =>
      obtain ⟨a, b⟩ := ab
      have hmem : ':' ∈ raw := by
        obtain ⟨hraw, _⟩ := splitFirst_eq_some ':' raw a b hsp
        rw [hraw]
        exact List.mem_append.mpr (Or.inr (List.mem_cons_self ':' b))
      cases hsp2 : splitFirst '/' b with
      | none => simp [parseRepoURLProjectOrg, hsp, hsp2, hmem]
      | some cd =>
        obtain ⟨c, d⟩ := cd
        simp [parseRepoURLProjectOrg, hsp, hsp2, hmem]
  · cases hsp : splitFirst '@' raw with
    | none =>
      have hne := (splitFirst_eq_none_iff '@' raw).mp hsp
      simp [parseRepoURLProjectURL, hsp, hne]
    | some ab =>
      obtain ⟨a, b⟩ := ab
      simp only [parseRepoURLProjectURL, hsp]
      constructor
      · intro h; exact absurd h (by simp)
      · intro h
        exact absurd hsp (by simp [(splitFirst_eq_none_iff '@' raw).mpr h])
  · cases hsp : splitFirst ':' raw with
    | none =>
      have hne := (splitFirst_eq_none_iff ':' raw).mp hsp
      simp [parseRepoURLProjectName, hsp, hne]
    | some ab =>
      obtain ⟨a, b⟩ := ab
      obtain ⟨hraw, hnm⟩ := splitFirst_eq_some ':' raw a b hsp
      cases hsp2 : splitFirst '/' b with
      | none =>
        have hslash := (splitFirst_eq_none_iff '/' b).mp hsp2
        have hr : ':' ∉ raw ∨ ∃ a' b', raw = a' ++ ':' :: b' ∧ ':' ∉ a' ∧ '/' ∉ b' :=
          Or.inr ⟨a, b, hraw, hnm, hslash⟩
        simp [parseRepoURLProjectName, hsp, hsp2, iff_true_intro hr]
      | some cd =>
        obtain ⟨c, d⟩ := cd
        simp only [parseRepoURLProjectName, hsp, hsp2]
        constructor
        · intro h; exact absurd h (by simp)
        · rintro (hno | ⟨a', b', hraw', hna', hnb'⟩)
          · exact absurd hsp (by simp [(splitFirst_eq_none_iff ':' raw).mpr hno])
          · have : splitFirst ':' raw = some (a', b') := by
              rw [hraw']; exact splitFirst_append_not_mem ':' a' b' hna'
            rw [hsp] at this
            obtain ⟨rfl, rfl⟩ : a' = a ∧ b' = b := by
              simpa [Prod.ext_iff] using this.symm
            exact absurd hsp2 (by simp [(splitFirst_eq_none_iff '/' b').mpr hnb'])

/-! ### C3, C4: project lookup -/

/-- C3.  Strict project lookup on the search results: an empty list fails
with the not-found error; a non-empty list with no candidate whose SSH
repo URL ends in `org/name.git` fails with the (other) not-found error;
otherwise the ID of the first matching candidate is returned. -/
theorem c3_getProjectID_spec (og nm : Str) (projs : List Project) :
    (projs = [] →
      getProjectIDFromResults og nm projs =
        .error (.notFound "got back no projects matching name")) ∧
    (projs ≠ [] →
      (∀ p ∈ projs, (orgNameSuffix og nm).isSuffixOf p.sshURLToRepo = false) →
      getProjectIDFromResults og nm projs =
        .error (.notFound "unable to find project")) ∧
    (∀ pre p post, projs = pre ++ p :: post →
      (∀ q ∈ pre, (orgNameSuffix og nm).isSuffixOf q.sshURLToRepo = false) →
      (orgNameSuffix og nm).isSuffixOf p.sshURLToRepo = true →
      getProjectIDFromResults og nm projs = .ok (itoa p.id)) := by
  refine ⟨?_, ?_, ?_⟩
  · intro h; subst h; rfl
  · intro hne hnone
    rw [getProjectIDFromResults, if_neg hne]
    have : projs.find? (fun p => (orgNameSuffix og nm).isSuffixOf p.sshURLToRepo) = none :=
      List.find?_eq_none.mpr (fun x hx => by simp [hnone x hx])
    rw [this]
  · intro pre p post hsplit hpre hp
    have hne : projs ≠ [] := by
      rw [hsplit]; exact List.append_ne_nil_of_right_ne_nil pre (List.cons_ne_nil p post)
    rw [getProjectIDFromResults, if_neg hne, hsplit]
    have h1 : pre.find? (fun q => (orgNameSuffix og nm).isSuffixOf q.sshURLToRepo) = none :=
      List.find?_eq_none.mpr (fun x hx => by simp [hpre x hx])
    rw [List.find?_append, h1, Option.none_or]
    simp [List.find?_cons, hp]

/-- C3 witness: concrete search-result lists exercising all three cases. -/
theorem c3_getProjectID_spec_witness :
    getProjectIDFromResults (strLit "minond") (strLit "git-open") [] =
      .error (.notFound "got back no projects matching name") ∧
    getProjectIDFromResults (strLit "minond") (strLit "git-open")
        [⟨7, strLit "git@github.com:other/thing.git"⟩] =
      .error (.notFound "unable to find project") ∧
    getProjectIDFromResults (strLit "minond") (strLit "git-open")
        [⟨7, strLit "git@github.com:other/thing.git"⟩,
         ⟨9, strLit "git@github.com:minond/git-open.git"⟩] =
      .ok (itoa 9) :=
  ⟨(c3_getProjectID_spec (strLit "minond") (strLit "git-open") []).1 rfl,
   (c3_getProjectID_spec (strLit "minond") (strLit "git-open")
      [⟨7, strLit "git@github.com:other/thing.git"⟩]).2.1 (by decide) (by decide),
   (c3_getProjectID_spec (strLit "minond") (strLit "git-open")
      [⟨7, strLit "git@github.com:other/thing.git"⟩,
       ⟨9, strLit "git@github.com:minond/git-open.git"⟩]).2.2
      [⟨7, strLit "git@github.com:other/thing.git"⟩]
      ⟨9, strLit "git@github.com:minond/git-open.git"⟩ [] rfl (by decide) (by decide)⟩

/-- C4.  The strict lookup (first source copy) and the loose lookup
(second source copy) agree on the empty list (both fail) and on any
non-empty list whose first element's SSH repo URL ends in `org/name.git`
(both return that element's ID).  The further clause of the claim — that
the loose variant's behaviour elsewhere is a latent bug rather than an
intentional simplification — is a statement of intent, not of code. -/
theorem c4_variants_agree (og nm : Str) (projs : List Project) :
    (projs = [] →
      getProjectIDFromResults og nm projs =
        .error (.notFound "got back no projects matching name") ∧
      getProjectIDLooseFromResults projs =
        .error (.notFound "unable to find project")) ∧
    (∀ p rest, projs = p :: rest →
      (orgNameSuffix og nm).isSuffixOf p.sshURLToRepo = true →
      getProjectIDFromResults og nm projs = .ok (itoa p.id) ∧
      getProjectIDLooseFromResults projs = .ok (itoa p.id)) := by
  constructor
  · intro h; subst h; exact ⟨rfl, rfl⟩
  · intro p rest hsplit hp
    subst hsplit
    constructor
    · rw [getProjectIDFromResults, if_neg (List.cons_ne_nil p rest)]
      simp [List.find?_cons, hp]
    · rfl

/-- C4 witness: a matching head element, and the empty list. -/
theorem c4_variants_agree_witness :
    (getProjectIDFromResults (strLit "minond") (strLit "git-open") [] =
        .error (.notFound "got back no projects matching name") ∧
      getProjectIDLooseFromResults ([] : List Project) =
        .error (.notFound "unable to find project")) ∧
    (getProjectIDFromResults (strLit "minond") (strLit "git-open")
        [⟨42, strLit "git@github.com:minond/git-open.git"⟩] = .ok (itoa 42) ∧
      getProjectIDLooseFromResults
        [⟨42, strLit "git@github.com:minond/git-open.git"⟩] = .ok (itoa 42)) :=
  ⟨(c4_variants_agree (strLit "minond") (strLit "git-open") []).1 rfl,
   (c4_variants_agree (strLit "minond") (strLit "git-open")
      [⟨42, strLit "git@github.com:minond/git-open.git"⟩]).2
      ⟨42, strLit "git@github.com:minond/git-open.git"⟩ [] rfl (by decide)⟩

/-! ### C6: merge-request lookup -/

/-- C6.  Merge-request lookup on the filtered search results: an empty
list fails with the not-found error; otherwise the first result's web URL
is returned verbatim (no sorting or deduplication — the tail is
ignored entirely). -/
theorem c6_getMRURL_spec (mrs : List MergeRequest) :
    (mrs = [] →
      getMRURLFromResults mrs = .error (.notFound "no matching MRs found")) ∧
    (∀ m rest, mrs = m :: rest → getMRURLFromResults mrs = .ok m.webURL) := by
  constructor
  · intro h; subst h; rfl
  · intro m rest h; subst h; rfl

/-- C6 witness: empty list, and a two-element list returning the first URL
even though a different second candidate is present. -/
theorem c6_getMRURL_spec_witness :
    getMRURLFromResults [] = .error (.notFound "no matching MRs found") ∧
    getMRURLFromResults [⟨strLit "https://gitlab.com/mr/1"⟩, ⟨strLit "https://gitlab.com/mr/2"⟩] =
      .ok (strLit "https://gitlab.com/mr/1") :=
  ⟨(c6_getMRURL_spec []).1 rfl,
   (c6_getMRURL_spec [⟨strLit "https://gitlab.com/mr/1"⟩, ⟨strLit "https://gitlab.com/mr/2"⟩]).2
      ⟨strLit "https://gitlab.com/mr/1"⟩ [⟨strLit "https://gitlab.com/mr/2"⟩] rfl⟩

/-! ### C5: branch resolution -/

/-- C5.  On the output of `git branch`: when no line starts with the `*`
marker, `getBranch` fails with the resolution error; otherwise it returns
the first marked line with the marker removed and surrounding whitespace
trimmed. -/
theorem c5_getBranch_spec (out : Str) :
    ((∀ line ∈ splitAll '\n' out, (strLit "*").isPrefixOf line = false) →
      getBranch out = .error (.resolution "unable to get current working branch")) ∧
    (∀ pre line post, splitAll '\n' out = pre ++ line :: post →
      (∀ l ∈ pre, (strLit "*").isPrefixOf l = false) →
      (strLit "*").isPrefixOf line = true →
      getBranch out = .ok (trimSpace (trimPrefix line (strLit "*")))) := by
  constructor
  · intro hnone
    rw [getBranch]
    have : (splitAll '\n' out).find? (fun line => (strLit "*").isPrefixOf line) = none :=
      List.find?_eq_none.mpr (fun x hx => by simp [hnone x hx])
    rw [this]
  · intro pre line post hsplit hpre hline
    rw [getBranch, hsplit]
    have h1 : pre.find? (fun l => (strLit "*").isPrefixOf l) = none :=
      List.find?_eq_none.mpr (fun x hx => by simp [hpre x hx])
    rw [List.find?_append, h1, Option.none_or]
    simp [List.find?_cons, hline]

/-- C5 witness: a detached-HEAD style output with no marker fails; a
two-line output returns the starred line, trimmed to `feature`. -/
theorem c5_getBranch_spec_witness :
    getBranch (strLit "  main\n  dev\n") =
      .error (.resolution "unable to get current working branch") ∧
    getBranch (strLit "  main\n* feature\n") =
      .ok (trimSpace (trimPrefix (strLit "* feature") (strLit "*"))) ∧
    trimSpace (trimPrefix (strLit "* feature") (strLit "*")) = strLit "feature" :=
  ⟨(c5_getBranch_spec (strLit "  main\n  dev\n")).1 (by decide),
   (c5_getBranch_spec (strLit "  main\n* feature\n")).2
      [strLit "  main"] (strLit "* feature") [[]] (by decide) (by decide) (by decide),
   by decide⟩

/-! ### C7: push-remote extraction -/

theorem fields_nil : fields ([] : Str) = [] := rfl

theorem findPushRemote_eq_none (lines : List Str)
    (h : ∀ l ∈ lines, (fields l).get? 2 ≠ some (strLit "(push)")) :
    findPushRemote lines = none := by
  induction lines with
  | nil => rfl
  | cons l rest ih =>
    have hrest := ih (fun x hx => h x (List.mem_cons_of_mem l hx))
    have hl := h l (List.mem_cons_self l rest)
    by_cases hemp : l = []
    · simp [findPushRemote, hemp, hrest]
    · rw [findPushRemote, if_neg hemp]
      cases hf : fields l with
      | nil => exact hrest
      | cons f0 fs0 =>
        cases fs0 with
        | nil => exact hrest
        | cons f1 fs1 =>
          cases fs1 with
          | nil => exact hrest
          | cons f2 fs2 =>
            have : f2 ≠ strLit "(push)" := fun hc => hl (by simp [hf, hc])
            simp [this, hrest]

theorem findPushRemote_prepend (pre rest : List Str)
    (h : ∀ l ∈ pre, (fields l).get? 2 ≠ some (strLit "(push)")) :
    findPushRemote (pre ++ rest) = findPushRemote rest := by
  induction pre with
  | nil => rfl
  | cons l pre' ih =>
    have hrest := ih (fun x hx => h x (List.mem_cons_of_mem l hx))
    have hl := h l (List.mem_cons_self l pre')
    by_cases hemp : l = []
    · simp [findPushRemote, hemp, hrest]
    · rw [List.cons_append, findPushRemote, if_neg hemp]
      cases hf : fields l with
      | nil => exact hrest
      | cons f0 fs0 =>
        cases fs0 with
        | nil => exact hrest
        | cons f1 fs1 =>
          cases fs1 with
          | nil => exact hrest
          | cons f2 fs2 =>
            have : f2 ≠ strLit "(push)" := fun hc => hl (by simp [hf, hc])
            simp [this, hrest]

theorem findPushRemote_hit (l : Str) (rest : List Str) (u : Str)
    (htag : (fields l).get? 2 = some (strLit "(push)"))
    (hurl : (fields l).get? 1 = some u) :
    findPushRemote (l :: rest) = some u := by
  have hemp : l ≠ [] := by
    intro hc; rw [hc, fields_nil] at htag; simp at htag
  rw [findPushRemote, if_neg hemp]
  cases hf : fields l with
  | nil => rw [hf] at htag; simp at htag
  | cons f0 fs0 =>
    cases fs0 with
    | nil => rw [hf] at htag; simp at htag
    | cons f1 fs1 =>
      cases fs1 with
      | nil => rw [hf] at htag; simp at htag
      | cons f2 fs2 =>
        rw [hf] at htag hurl
        simp only [List.get?] at htag hurl
        obtain rfl : f2 = strLit "(push)" := by simpa using htag
        obtain rfl : f1 = u := by simpa using hurl
        simp

/-- C7.  On the output of `git remote -v`: `getProjectRemote` returns the
second whitespace-separated field (the URL) of the first line whose third
field is `(push)` — lines that are empty, have fewer than three fields, or
carry a different tag are skipped — and fails with the resolution error
when no such line exists. -/
theorem c7_getProjectRemote_spec (out : Str) :
    ((∀ l ∈ splitAll '\n' out, (fields l).get? 2 ≠ some (strLit "(push)")) →
      getProjectRemote out = .error (.resolution "unable to find remote push url")) ∧
    (∀ pre l post u, splitAll '\n' out = pre ++ l :: post →
      (∀ l' ∈ pre, (fields l').get? 2 ≠ some (strLit "(push)")) →
      (fields l).get? 2 = some (strLit "(push)") →
      (fields l).get? 1 = some u →
      getProjectRemote out = .ok u) := by
  constructor
  · intro h
    rw [getProjectRemote, findPushRemote_eq_none (splitAll '\n' out) h]
  · intro pre l post u hsplit hpre htag hurl
    rw [getProjectRemote, hsplit, findPushRemote_prepend pre (l :: post) hpre,
      findPushRemote_hit l post u htag hurl]

/-- C7 witness: a fetch-only listing fails; a standard two-line listing
returns the push URL, skipping the fetch line and a malformed short
line. -/
theorem c7_getProjectRemote_spec_witness :
    getProjectRemote (strLit "origin git@h:o/n.git (fetch)\nnoise\n") =
      .error (.resolution "unable to find remote push url") ∧
    getProjectRemote
        (strLit "origin git@h:o/n.git (fetch)\norigin git@h:o/n.git (push)\n") =
      .ok (strLit "git@h:o/n.git") :=
  ⟨(c7_getProjectRemote_spec (strLit "origin git@h:o/n.git (fetch)\nnoise\n")).1
      (by decide),
   (c7_getProjectRemote_spec
        (strLit "origin git@h:o/n.git (fetch)\norigin git@h:o/n.git (push)\n")).2
      [strLit "origin git@h:o/n.git (fetch)"] (strLit "origin git@h:o/n.git (push)")
      [[]] (strLit "git@h:o/n.git") (by decide) (by decide) (by decide) (by decide)⟩

/-! ### C8: CLI argument dispatch -/

theorem runHome_ne_invalidArg (env : Env) (x : Str) : runHome env ≠ .invalidArg x := by
  rw [runHome]
  cases h : getProjectHomeURLEff env with
  | error e => simp
  | ok url =>
    cases h2 : load env.xdgExists env.runCmd url with
    | error e => simp [h2]
    | ok u => simp [h2]

theorem runMR_ne_invalidArg (env : Env) (x : Str) : runMR env ≠ .invalidArg x := by
  rw [runMR]
  cases h : getBranchEff env with
  | error e => simp
  | ok branch =>
    cases h2 : getProjectIDEff env with
    | error e => simp [h2]
    | ok projID =>
      cases h3 : getMRURLEff env projID branch with
      | error e => simp [h2, h3]
      | ok url =>
        cases h4 : load env.xdgExists env.runCmd url with
        | error e => simp [h2, h3, h4]
        | ok u => simp [h2, h3, h4]

/-- C8.  `main`'s dispatch: an empty argument vector (or one holding only
the program name) behaves exactly as if `home` were given; `homepage` and
`home` run the same branch; `mr`, `home` and `homepage` are accepted (they
never hit the invalid-argument exit); any other first argument yields the
fatal invalid-argument exit, and does so for every environment — no git
subprocess, network call or opener is consulted. -/
theorem c8_main_dispatch (env env' : Env) (p a : Str) (rest : List Str)
    (hmr : a ≠ strLit "mr") (hhome : a ≠ strLit "home")
    (hpage : a ≠ strLit "homepage") :
    goMain env [] = goMain env (p :: strLit "home" :: rest) ∧
    goMain env [p] = goMain env (p :: strLit "home" :: rest) ∧
    goMain env (p :: strLit "homepage" :: rest) = goMain env (p :: strLit "home" :: rest) ∧
    (∀ x, goMain env (p :: strLit "mr" :: rest) ≠ .invalidArg x) ∧
    (∀ x, goMain env (p :: strLit "home" :: rest) ≠ .invalidArg x) ∧
    (∀ x, goMain env (p :: strLit "homepage" :: rest) ≠ .invalidArg x) ∧
    goMain env (p :: a :: rest) = .invalidArg a ∧
    goMain env (p :: a :: rest) = goMain env' (p :: a :: rest) := by
  have hinv : ∀ e : Env, goMain e (p :: a :: rest) = .invalidArg a := by
    intro e
    simp only [goMain, argOf, if_neg hmr, if_neg hhome, if_neg hpage]
  have hhomeCase : ∀ (q : Str) (r : List Str),
      goMain env (q :: strLit "home" :: r) = runHome env := by
    intro q r
    simp only [goMain, argOf]
    rw [if_neg (by decide)]
    simp
  have hpageCase : ∀ (q : Str) (r : List Str),
      goMain env (q :: strLit "homepage" :: r) = runHome env := by
    intro q r
    simp only [goMain, argOf]
    rw [if_neg (by decide), if_neg (by decide)]
    simp
  have hmrCase : ∀ (q : Str) (r : List Str),
      goMain env (q :: strLit "mr" :: r) = runMR env := by
    intro q r
    simp only [goMain, argOf]
    simp
  have hnilCase : goMain env [] = runHome env := by
    simp only [goMain, argOf]
    rw [if_neg (by decide)]
    simp
  have honeCase : goMain env [p] = runHome env := by
    simp only [goMain, argOf]
    rw [if_neg (by decide)]
    simp
  refine ⟨?_, ?_, ?_, ?_, ?_, ?_, hinv env, (hinv env).trans (hinv env').symm⟩
  · rw [hnilCase, hhomeCase]
  · rw [honeCase, hhomeCase]
  · rw [hpageCase, hhomeCase]
  · intro x
    rw [hmrCase]
    exact runMR_ne_invalidArg env x
  · intro x
    rw [hhomeCase]
    exact runHome_ne_invalidArg env x
  · intro x
    rw [hpageCase]
    exact runHome_ne_invalidArg env x

/-- C8 witness: a concrete environment, program name `git-open`, and the
unrecognized argument `foo`, compared against a second, different
environment to exhibit that the invalid exit consults no effect oracle. -/
theorem c8_main_dispatch_witness :
    goMain ⟨some (strLit "* main\n"), some (strLit "o git@h:o/n.git (push)\n"),
        fun _ => some [], fun _ _ => some [], true, fun _ _ => none⟩
      (strLit "git-open" :: strLit "foo" :: []) = .invalidArg (strLit "foo") ∧
    goMain ⟨some (strLit "* main\n"), some (strLit "o git@h:o/n.git (push)\n"),
        fun _ => some [], fun _ _ => some [], true, fun _ _ => none⟩
      (strLit "git-open" :: strLit "foo" :: []) =
    goMain ⟨none, none, fun _ => none, fun _ _ => none, false, fun _ _ => some "fail"⟩
      (strLit "git-open" :: strLit "foo" :: []) :=
  ⟨(c8_main_dispatch
      ⟨some (strLit "* main\n"), some (strLit "o git@h:o/n.git (push)\n"),
        fun _ => some [], fun _ _ => some [], true, fun _ _ => none⟩
      ⟨none, none, fun _ => none, fun _ _ => none, false, fun _ _ => some "fail"⟩
      (strLit "git-open") (strLit "foo") [] (by decide) (by decide) (by decide)).2.2.2.2.2.2.1,
   (c8_main_dispatch
      ⟨some (strLit "* main\n"), some (strLit "o git@h:o/n.git (push)\n"),
        fun _ => some [], fun _ _ => some [], true, fun _ _ => none⟩
      ⟨none, none, fun _ => none, fun _ _ => none, false, fun _ _ => some "fail"⟩
      (strLit "git-open") (strLit "foo") [] (by decide) (by decide) (by decide)).2.2.2.2.2.2.2⟩

/-! ### C9: the launcher -/

/-- C9.  `load` selects `xdg-open` exactly when it exists on the path and
`open` otherwise, and fails — with a launch error carrying the process
failure — exactly when the selected opener fails; it succeeds otherwise. -/
theorem c9_load_spec (xdg : Bool) (runCmd : Str → Str → Option String) (url : Str) :
    (xdg = true →
      (load xdg runCmd url = .ok () ↔ runCmd (strLit "xdg-open") url = none) ∧
      (∀ m, runCmd (strLit "xdg-open") url = some m →
        load xdg runCmd url = .error (.launch m))) ∧
    (xdg = false →
      (load xdg runCmd url = .ok () ↔ runCmd (strLit "open") url = none) ∧
      (∀ m, runCmd (strLit "open") url = some m →
        load xdg runCmd url = .error (.launch m))) := by
  constructor
  · rintro rfl
    refine ⟨?_, ?_⟩
    · cases h : runCmd (strLit "xdg-open") url with
      | none => simp [load, h]
      | some m => simp [load, h]
    · intro m hm
      simp [load, hm]
  · rintro rfl
    refine ⟨?_, ?_⟩
    · cases h : runCmd (strLit "open") url with
      | none => simp [load, h]
      | some m => simp [load, h]
    · intro m hm
      simp [load, hm]

/-- C9 witness: with `xdg-open` present and a succeeding opener the load
succeeds; with it absent and a failing opener the load fails with the
launch error. -/
theorem c9_load_spec_witness :
    (load true (fun _ _ => none) (strLit "https://github.com/minond/git-open") = .ok () ↔
      (fun (_ _ : Str) => (none : Option String)) (strLit "xdg-open")
        (strLit "https://github.com/minond/git-open") = none) ∧
    load false (fun _ _ => some "exit status 1") (strLit "https://github.com/minond/git-open") =
      .error (.launch "exit status 1") :=
  ⟨((c9_load_spec true (fun _ _ => none)
      (strLit "https://github.com/minond/git-open")).1 rfl).1,
   ((c9_load_spec false (fun _ _ => some "exit status 1")
      (strLit "https://github.com/minond/git-open")).2 rfl).2 "exit status 1" rfl⟩

/-! ### C10: mutual consistency of the three parsers -/

theorem trimSuffix_append_cons (x : Str) (c : Char) (n suf : Str) (hc : c ∉ suf) :
    trimSuffix (x ++ c :: n) suf = x ++ c :: trimSuffix n suf := by
  by_cases hs : suf <:+ n
  · obtain ⟨t, rfl⟩ := hs
    have h1 : x ++ c :: (t ++ suf) = (x ++ c :: t) ++ suf := by simp
    rw [h1, trimSuffix_append, trimSuffix_append]
  · have hns : ¬ suf <:+ (x ++ c :: n) := by
      intro hsuf
      by_cases hlen : suf.length ≤ n.length
      · have hn : n <:+ (x ++ c :: n) := ⟨x ++ [c], by simp⟩
        exact hs (List.suffix_of_suffix_length_le hsuf hn hlen)
      · have hcn : (c :: n) <:+ (x ++ c :: n) := ⟨x, rfl⟩
        have hsub : (c :: n) <:+ suf :=
          List.suffix_of_suffix_length_le hcn hsuf
            (by simp only [List.length_cons]; omega)
        exact hc (hsub.subset (List.mem_cons_self c n))
    rw [trimSuffix_of_not_suffix _ _ hns, trimSuffix_of_not_suffix _ _ hs]

/-- C10 counterexample: `a@b:c` contains an `@` followed by a `:`; the
home-URL parser produces `https://b/c` and the org parser returns the
whole path `c` (Go's in-range index `[0]`), but the name parser has no
value there (Go's unguarded index `orgAndName[1]` panics), so the claimed
identity between the three parsers' outputs cannot hold on every
`user@host:path` input: one of its sides is undefined. -/
theorem c10_counterexample :
    parseRepoURLProjectURL (strLit "a@b:c") = some (strLit "https://b/c") ∧
    parseRepoURLProjectOrg (strLit "a@b:c") = some (strLit "c") ∧
    parseRepoURLProjectName (strLit "a@b:c") = none := by
  decide

/-- C10 (amended).  On every remote URL `user@host:path` whose path
contains a `/` — so that all three parsers are defined — they are mutually
consistent: the home URL equals `https://` ++ host ++ `/` ++ org ++ `/` ++
name, where host is the text between the first `@` and the first `:`, and
org and name are the other two parsers' outputs. -/
theorem c10_parse_consistent (user host og n : Str)
    (huAt : '@' ∉ user) (huColon : ':' ∉ user) (hhColon : ':' ∉ host)
    (hoSlash : '/' ∉ og) :
    parseRepoURLProjectOrg (user ++ '@' :: (host ++ ':' :: (og ++ '/' :: n)))
      = some og ∧
    parseRepoURLProjectName (user ++ '@' :: (host ++ ':' :: (og ++ '/' :: n)))
      = some (trimSuffix n dotGit) ∧
    parseRepoURLProjectURL (user ++ '@' :: (host ++ ':' :: (og ++ '/' :: n)))
      = some (strLit "https://" ++ (host ++ '/' :: (og ++ '/' :: trimSuffix n dotGit))) := by
  have hassoc :
      user ++ '@' :: (host ++ ':' :: (og ++ '/' :: n))
        = (user ++ '@' :: host) ++ ':' :: (og ++ '/' :: n) := by
    simp
  have hcolon_mem : ':' ∉ user ++ '@' :: host := by
    intro hmem
    rcases List.mem_append.mp hmem with h | h
    · exact huColon h
    · rcases List.mem_cons.mp h with h | h
      · exact absurd h (by decide)
      · exact hhColon h
  have hsplit1 :
      splitFirst ':' (user ++ '@' :: (host ++ ':' :: (og ++ '/' :: n)))
        = some (user ++ '@' :: host, og ++ '/' :: n) := by
    rw [hassoc]
    exact splitFirst_append_not_mem ':' (user ++ '@' :: host) (og ++ '/' :: n) hcolon_mem
  have hsplit2 : splitFirst '/' (og ++ '/' :: n) = some (og, n) :=
    splitFirst_append_not_mem '/' og n hoSlash
  have hsplitAt :
      splitFirst '@' (user ++ '@' :: (host ++ ':' :: (og ++ '/' :: n)))
        = some (user, host ++ ':' :: (og ++ '/' :: n)) :=
    splitFirst_append_not_mem '@' user (host ++ ':' :: (og ++ '/' :: n)) huAt
  have hrepl := replaceFirst_append_not_mem ':' '/' host (og ++ '/' :: n) hhColon
  have hslashGit : '/' ∉ dotGit := by decide
  have htrim : trimSuffix (host ++ '/' :: (og ++ '/' :: n)) dotGit
      = host ++ '/' :: (og ++ '/' :: trimSuffix n dotGit) := by
    rw [trimSuffix_append_cons host '/' (og ++ '/' :: n) dotGit hslashGit,
      trimSuffix_append_cons og '/' n dotGit hslashGit]
  refine ⟨?_, ?_, ?_⟩
  · simp only [parseRepoURLProjectOrg, hsplit1, hsplit2]
  · simp only [parseRepoURLProjectName, hsplit1, hsplit2]
  · simp only [parseRepoURLProjectURL, hsplitAt, hrepl, htrim]

/-- C10 witness: the GitLab-style remote `git@gitlab.example.com:grp/proj.git`,
where the parsers agree on org `grp`, name `proj`, and home URL
`https://gitlab.example.com/grp/proj`. -/
theorem c10_parse_consistent_witness :
    parseRepoURLProjectOrg (strLit "git" ++ '@' :: (strLit "gitlab.example.com" ++ ':' ::
        (strLit "grp" ++ '/' :: strLit "proj.git"))) = some (strLit "grp") ∧
    parseRepoURLProjectName (strLit "git" ++ '@' :: (strLit "gitlab.example.com" ++ ':' ::
        (strLit "grp" ++ '/' :: strLit "proj.git")))
      = some (trimSuffix (strLit "proj.git") dotGit) ∧
    parseRepoURLProjectURL (strLit "git" ++ '@' :: (strLit "gitlab.example.com" ++ ':' ::
        (strLit "grp" ++ '/' :: strLit "proj.git")))
      = some (strLit "https://" ++ (strLit "gitlab.example.com" ++ '/' ::
          (strLit "grp" ++ '/' :: trimSuffix (strLit "proj.git") dotGit))) :=
  c10_parse_consistent (strLit "git") (strLit "gitlab.example.com") (strLit "grp")
    (strLit "proj.git") (by decide) (by decide) (by decide) (by decide)
